import Mathlib

/-!
# Verification of the bigram language model (`src/bigram_model.py`)

Shallow embedding of the five functions of `bigram_model.py` over exact
rationals (tensor floats are idealised as `ℚ`, logarithms as `Real.log`),
with Python's failure modes made explicit:

* a `dict` lookup that misses raises `KeyError`;
* tensor indexing out of range raises `IndexError`;
* `x / 0` on Python numbers raises `ZeroDivisionError`;
* `torch.multinomial` raises a `RuntimeError` on a negative weight or an
  all-zero weight row, and otherwise samples an index of positive weight;
* float division of tensors by a zero denominator raises nothing and
  produces a non-finite value (NaN); the embedding of
  `bigrams_count_to_probabilities` therefore returns `Option ℚ` entries,
  `none` standing for the non-finite float result of dividing by zero.

The randomness consumed by `torch.multinomial` is abstracted as a stream
of draws `u : ℕ → ℚ` (inverse-CDF sampling: a draw `u ∈ [0,1)` selects the
first index whose cumulative weight exceeds `u * total`).

The spec's `DomainError` reason codes also appear in the error type so that
statements can compare what the code raises with what the spec prescribes;
the embedded code itself never constructs a `DomainError`.
-/

namespace BigramModel

/-- The spec's `DomainError` reason codes (section 7 of the spec). -/
inductive DomainReason where
  | unknownSymbol
  | emptyCorpus
  | noObservedContinuations
  | malformedDistribution
  | vocabularyMismatch
deriving DecidableEq, Repr

/-- Failure modes of the embedded Python code, together with the spec's
`DomainError`.  The code under `src/` only ever produces the first four. -/
inductive PyError where
  | keyError (key : String)
  | indexError
  | zeroDivisionError
  | runtimeError
  | domainError (reason : DomainReason)
deriving DecidableEq, Repr

/-- IEEE-style division used on tensor entries: a zero denominator yields a
non-finite float (NaN for `0/0`), modelled as `none`. -/
def fdiv (n d : ℚ) : Option ℚ :=
  if d = 0 then none else some (n / d)

/-- Embedding of `bigrams_count_to_probabilities`: add `smooth_factor` to
every cell, then divide each row by its own sum (`sum(dim=1).unsqueeze(1)`
broadcasting).  A zero row sum makes every entry of that row non-finite. -/
def bigrams_count_to_probabilities (bigram_counts : List (List ℚ))
    (smooth_factor : ℚ := 0) : List (List (Option ℚ)) :=
  bigram_counts.map (fun row =>
    let smoothed := row.map (fun x => x + smooth_factor)
    let denominator := smoothed.sum
    smoothed.map (fun x => fdiv x denominator))

/-- Modelled from the spec: `build_probabilities` as section 4.1 prescribes
it, with the `NoObservedContinuations` check that is missing from the
source; a row whose smoothed sum is zero is rejected with a `DomainError`
instead of being divided. -/
def build_probabilities_spec (bigram_counts : List (List ℚ))
    (smooth_factor : ℚ := 0) : Except PyError (List (List ℚ)) :=
  if bigram_counts.any (fun row => (row.map (fun x => x + smooth_factor)).sum == 0) then
    .error (.domainError .noObservedContinuations)
  else
    .ok (bigram_counts.map (fun row =>
      let smoothed := row.map (fun x => x + smooth_factor)
      smoothed.map (fun x => x / smoothed.sum)))

/-- Python `dict` access `d[k]` for a `str`-keyed dict: the value of the
key, or `KeyError`. -/
def strDictGet (d : List (String × ℕ)) (k : String) : Except PyError ℕ :=
  match d.find? (fun p => p.1 == k) with
  | some p => .ok p.2
  | none => .error (.keyError k)

/-- Python `dict` access `d[k]` for an `int`-keyed dict: the value of the
key, or `KeyError`. -/
def natDictGet (d : List (ℕ × String)) (k : ℕ) : Except PyError String :=
  match d.find? (fun p => p.1 == k) with
  | some p => .ok p.2
  | none => .error (.keyError (toString k))

/-- Tensor element access `M[j, k]` with non-negative indices:
`IndexError` when an index is out of range. -/
def tensorGet2 (M : List (List ℚ)) (j k : ℕ) : Except PyError ℚ :=
  match M.get? j with
  | none => .error .indexError
  | some row =>
    match row.get? k with
    | none => .error .indexError
    | some q => .ok q

/-- Tensor row access `M[i]` with torch's signed-index semantics: a
negative `i` counts from the end; `IndexError` outside `[-len, len)`. -/
def tensorRow (M : List (List ℚ)) (i : ℤ) : Except PyError (List ℚ) :=
  let n : ℤ := M.length
  let j : ℤ := if i < 0 then n + i else i
  if 0 ≤ j ∧ j < n then .ok (M.getD j.toNat []) else .error .indexError

/-- Python's `word.lower()`: lower-case the word character by
character. -/
def lower (word : String) : String :=
  String.mk (word.data.map Char.toLower)

/-- `processed_word = start_token + word.lower() + end_token`
(line 169 of the source). -/
def processedWord (start_token end_token word : String) : String :=
  start_token ++ lower word ++ end_token

/-- The adjacent pairs `(processed_word[i-1], processed_word[i])` visited by
the loop `for i in range(1, len(processed_word))`. -/
def walkPairs (l : List Char) : List (Char × Char) :=
  l.zip l.tail

/-- One loop iteration of `calculate_log_likelihood`: look up both
characters of the bigram in `char_to_index` (each as its own 1-character
string) and read the matrix entry at those indices. -/
def lookProb (M : List (List ℚ)) (char_to_index : List (String × ℕ))
    (p : Char × Char) : Except PyError ℚ :=
  match strDictGet char_to_index (String.singleton p.1) with
  | .error e => .error e
  | .ok j =>
    match strDictGet char_to_index (String.singleton p.2) with
    | .error e => .error e
    | .ok k => tensorGet2 M j k

/-- Run the scoring loop over a pair list, collecting the probabilities it
reads; the first raised exception propagates, as in Python. -/
def lookAll (M : List (List ℚ)) (char_to_index : List (String × ℕ)) :
    List (Char × Char) → Except PyError (List ℚ)
  | [] => .ok []
  | p :: ps =>
    match lookProb M char_to_index p with
    | .error e => .error e
    | .ok q =>
      match lookAll M char_to_index ps with
      | .error e => .error e
      | .ok qs => .ok (q :: qs)

/-- The sequence of bigram probabilities read by `calculate_log_likelihood`
for `word` (the computable core of the function: everything except taking
logarithms). -/
def calculate_log_likelihood_probs (word : String) (bigram_probabilities : List (List ℚ))
    (char_to_index : List (String × ℕ)) (start_token : String := "<S>")
    (end_token : String := "<E>") : Except PyError (List ℚ) :=
  lookAll bigram_probabilities char_to_index
    (walkPairs (processedWord start_token end_token word).data)

/-- Sum of the natural logs of a list of probabilities. -/
noncomputable def logSum (ps : List ℚ) : ℝ :=
  (ps.map (fun p : ℚ => Real.log (p : ℝ))).sum

/-- Embedding of `calculate_log_likelihood`: accumulate
`log(bigram_probabilities[j, k])` over the bigrams of the processed word. -/
noncomputable def calculate_log_likelihood (word : String)
    (bigram_probabilities : List (List ℚ)) (char_to_index : List (String × ℕ))
    (start_token : String := "<S>") (end_token : String := "<E>") :
    Except PyError ℝ :=
  match calculate_log_likelihood_probs word bigram_probabilities char_to_index
      start_token end_token with
  | .error e => .error e
  | .ok ps => .ok (logSum ps)

/-- The per-word probability lists accumulated by the loop of
`calculate_neg_mean_log_likelihood`; the first exception propagates. -/
def corpus_probs (words : List String) (bigram_probabilities : List (List ℚ))
    (char_to_index : List (String × ℕ)) (start_token end_token : String) :
    Except PyError (List (List ℚ)) :=
  match words with
  | [] => .ok []
  | w :: ws =>
    match calculate_log_likelihood_probs w bigram_probabilities char_to_index
        start_token end_token with
    | .error e => .error e
    | .ok ps =>
      match corpus_probs ws bigram_probabilities char_to_index start_token end_token with
      | .error e => .error e
      | .ok rest => .ok (ps :: rest)

/-- Embedding of `calculate_neg_mean_log_likelihood`: sum the per-word log
likelihoods, then compute `-total / len(words)`; `len(words) = 0` makes the
final division raise `ZeroDivisionError`. -/
noncomputable def calculate_neg_mean_log_likelihood (words : List String)
    (bigram_probabilities : List (List ℚ)) (char_to_index : List (String × ℕ))
    (start_token : String := "<S>") (end_token : String := "<E>") :
    Except PyError ℝ :=
  match corpus_probs words bigram_probabilities char_to_index start_token end_token with
  | .error e => .error e
  | .ok pls =>
    if words.length = 0 then .error .zeroDivisionError
    else .ok (-(pls.map logSum).sum / (words.length : ℝ))

/-- Inverse-CDF selection: the first index whose running weight total
exceeds `t`. -/
def pick : List ℚ → ℚ → ℕ
  | [], _ => 0
  | w :: ws, t => if t < w then 0 else (pick ws (t - w)) + 1

/-- Model of `torch.multinomial(weights, 1)`: rejects a negative weight or
an all-zero row with a `RuntimeError`; otherwise the draw `u ∈ [0,1)`
selects index `j` with probability `weights[j] / weights.sum` (inverse-CDF
over the unnormalised weights — torch normalises internally, so a row need
not sum to 1). -/
def torch_multinomial1 (weights : List ℚ) (u : ℚ) : Except PyError ℕ :=
  if weights.any (fun w => decide (w < 0)) then .error .runtimeError
  else if weights.sum ≤ 0 then .error .runtimeError
  else .ok (pick weights (u * weights.sum))

/-- Embedding of `sample_next_character`, the draw abstracted as `u`:
select the row of the current index, sample an index from it, and map it
back through `idx_to_char`. -/
def sample_next_character (u : ℚ) (current_char_index : ℤ)
    (probability_distribution : List (List ℚ)) (idx_to_char : List (ℕ × String)) :
    Except PyError String :=
  match tensorRow probability_distribution current_char_index with
  | .error e => .error e
  | .ok current_probs =>
    match torch_multinomial1 current_probs u with
    | .error e => .error e
    | .ok next_char_index =>
      match natDictGet idx_to_char next_char_index with
      | .error e => .error e
      | .ok next_char => .ok next_char

/-- The loop of `generate_name`, returning the list of symbols appended to
`generated_name` in order: `fuel` iterations remain, `step` numbers the
draws consumed from the stream `us`, `current` is the current character.
Sampling the end token stops the loop without appending it. -/
def generate_go (us : ℕ → ℚ) (end_token : String) (char_to_idx : List (String × ℕ))
    (idx_to_char : List (ℕ × String)) (bigram_probabilities : List (List ℚ)) :
    ℕ → ℕ → String → Except PyError (List String)
  | 0, _, _ => .ok []
  | fuel + 1, step, current =>
    match strDictGet char_to_idx current with
    | .error e => .error e
    | .ok current_char_index =>
      match sample_next_character (us step) (current_char_index : ℤ)
          bigram_probabilities idx_to_char with
      | .error e => .error e
      | .ok next_char =>
        if next_char = end_token then .ok []
        else
          match generate_go us end_token char_to_idx idx_to_char
              bigram_probabilities fuel (step + 1) next_char with
          | .error e => .error e
          | .ok rest => .ok (next_char :: rest)

/-- Embedding of `generate_name`: run the loop from the start token for at
most `max_length` iterations and concatenate the kept symbols. -/
def generate_name (us : ℕ → ℚ) (start_token end_token : String)
    (char_to_idx : List (String × ℕ)) (idx_to_char : List (ℕ × String))
    (bigram_probabilities : List (List ℚ)) (max_length : ℕ := 15) :
    Except PyError String :=
  match generate_go us end_token char_to_idx idx_to_char bigram_probabilities
      max_length 0 start_token with
  | .error e => .error e
  | .ok symbols => .ok (String.join symbols)

end BigramModel

namespace BigramModel

/-! ## Helper lemmas -/

theorem list_sum_map_div (l : List ℚ) (d : ℚ) :
    (l.map (fun x => x / d)).sum = l.sum / d := by
  induction l with
  | nil => simp
  | cons a t ih => simp [ih, add_div]

end BigramModel

namespace BigramModel

/-! ## Claims -/

/-- C1: for every count matrix (non-negative entries) and every smoothing
constant ≥ 0 such that no row of the smoothed matrix is all zero, every row
of the matrix returned by `bigrams_count_to_probabilities` consists of
finite entries in `[0, 1]` and sums to exactly 1, hence to 1.0 within
`1e-6`. -/
theorem C1_row_stochastic (counts : List (List ℚ)) (s : ℚ) (prow : List (Option ℚ))
    (hs : 0 ≤ s)
    (hnn : ∀ row ∈ counts, ∀ x ∈ row, 0 ≤ x)
    (hnz : ∀ row ∈ counts, ∃ x ∈ row, x + s ≠ 0)
    (hmem : prow ∈ bigrams_count_to_probabilities counts s) :
    (∀ o ∈ prow, o.isSome) ∧
    (∀ q ∈ prow.filterMap id, 0 ≤ q ∧ q ≤ 1) ∧
    (prow.filterMap id).sum = 1 ∧
    |(prow.filterMap id).sum - 1| ≤ 1 / 1000000 := by
  obtain ⟨row, hrow, hpr⟩ := List.mem_map.mp hmem
  subst hpr
  simp only [bigrams_count_to_probabilities]
  set sm : List ℚ := row.map (fun x => x + s) with hsm
  have hsmnn : ∀ y ∈ sm, 0 ≤ y := by
    intro y hy
    obtain ⟨x, hx, hxy⟩ := List.mem_map.mp hy
    subst hxy
    exact add_nonneg (hnn row hrow x hx) hs
  have hd0 : 0 < sm.sum := by
    obtain ⟨x, hx, hxne⟩ := hnz row hrow
    have hy : x + s ∈ sm := List.mem_map.mpr ⟨x, hx, rfl⟩
    have hxpos : 0 < x + s :=
      lt_of_le_of_ne (add_nonneg (hnn row hrow x hx) hs) (Ne.symm hxne)
    exact lt_of_lt_of_le hxpos (List.single_le_sum hsmnn _ hy)
  have hdne : sm.sum ≠ 0 := ne_of_gt hd0
  have hmap : sm.map (fun x => fdiv x sm.sum) = sm.map (fun x => some (x / sm.sum)) := by
    simp only [fdiv, if_neg hdne]
  rw [hmap]
  have hfm : (sm.map (fun x => some (x / sm.sum))).filterMap id
      = sm.map (fun x => x / sm.sum) := by
    rw [List.filterMap_map]
    exact congrFun (List.filterMap_eq_map (fun x => x / sm.sum)) sm
  refine ⟨?_, ?_, ?_, ?_⟩
  · intro o ho
    obtain ⟨x, _, hxo⟩ := List.mem_map.mp ho
    subst hxo
    rfl
  · intro q hq
    rw [hfm] at hq
    obtain ⟨y, hy, hyq⟩ := List.mem_map.mp hq
    subst hyq
    exact ⟨div_nonneg (hsmnn y hy) hd0.le,
      (div_le_one hd0).mpr (List.single_le_sum hsmnn _ hy)⟩
  · rw [hfm, list_sum_map_div, div_self hdne]
  · rw [hfm, list_sum_map_div, div_self hdne]
    norm_num

/-- C1 witness: the worked row `[0,0,3,1]` smoothed by 1. -/
theorem C1_row_stochastic_witness :
    (∀ o ∈ [some ((1:ℚ)/8), some (1/8), some (4/8), some (2/8)], o.isSome) ∧
    (∀ q ∈ ([some ((1:ℚ)/8), some (1/8), some (4/8), some (2/8)]).filterMap id,
      0 ≤ q ∧ q ≤ 1) ∧
    (([some ((1:ℚ)/8), some (1/8), some (4/8), some (2/8)]).filterMap id).sum = 1 ∧
    |(([some ((1:ℚ)/8), some (1/8), some (4/8), some (2/8)]).filterMap id).sum - 1|
      ≤ 1 / 1000000 :=
  C1_row_stochastic [[0, 0, 3, 1]] 1 _
    (by norm_num)
    (by norm_num)
    (by norm_num)
    (by norm_num [bigrams_count_to_probabilities, fdiv])

/-- C2: at the count matrix `[[0]]` with smoothing 0 the row sum is zero;
the source divides anyway and the row comes back non-finite (NaN, modelled
as `none`) with no exception, whereas the spec's version of the builder
rejects the input with `DomainError NoObservedContinuations`. -/
theorem C2_zero_row_nan :
    bigrams_count_to_probabilities [[0]] 0 = [[none]] ∧
    build_probabilities_spec [[0]] 0
      = .error (.domainError .noObservedContinuations) := by
  constructor
  · norm_num [bigrams_count_to_probabilities, fdiv]
  · norm_num [build_probabilities_spec]

end BigramModel

namespace BigramModel

theorem logSum_nonpos (ps : List ℚ) (h : ∀ q ∈ ps, 0 ≤ q ∧ q ≤ 1) :
    logSum ps ≤ 0 := by
  induction ps with
  | nil => simp [logSum]
  | cons a t ih =>
    have ha := h a (List.mem_cons_self a t)
    have ht := ih (fun q hq => h q (List.mem_cons_of_mem a hq))
    have hla : Real.log ((a : ℚ) : ℝ) ≤ 0 :=
      Real.log_nonpos (by exact_mod_cast ha.1) (by exact_mod_cast ha.2)
    simp only [logSum, List.map_cons, List.sum_cons] at *
    linarith

theorem lookProb_mem (M : List (List ℚ)) (v : List (String × ℕ)) (p : Char × Char)
    (q : ℚ) (h : lookProb M v p = .ok q) : ∃ row ∈ M, q ∈ row := by
  unfold lookProb at h
  rcases h1 : strDictGet v (String.singleton p.1) with e1 | j
  · rw [h1] at h; exact absurd h (by simp)
  · rw [h1] at h
    dsimp only at h
    rcases h2 : strDictGet v (String.singleton p.2) with e2 | k
    · rw [h2] at h; exact absurd h (by simp)
    · rw [h2] at h
      dsimp only at h
      unfold tensorGet2 at h
      rcases h3 : M.get? j with _ | row
      · rw [h3] at h; exact absurd h (by simp)
      · rw [h3] at h
        dsimp only at h
        rcases h4 : row.get? k with _ | q'
        · rw [h4] at h; exact absurd h (by simp)
        · rw [h4] at h
          dsimp only at h
          have hq : q' = q := by injection h
          subst hq
          exact ⟨row, List.get?_mem h3, List.get?_mem h4⟩

theorem lookAll_mem (M : List (List ℚ)) (v : List (String × ℕ)) :
    ∀ (pairs : List (Char × Char)) (ps : List ℚ),
      lookAll M v pairs = .ok ps → ∀ q ∈ ps, ∃ row ∈ M, q ∈ row := by
  intro pairs
  induction pairs with
  | nil =>
    intro ps h q hq
    unfold lookAll at h
    have : ps = [] := by injection h with h'; exact h'.symm
    subst this
    exact absurd hq (by simp)
  | cons p rest ih =>
    intro ps h q hq
    unfold lookAll at h
    rcases h1 : lookProb M v p with e1 | q1
    · rw [h1] at h; exact absurd h (by simp)
    · rw [h1] at h
      rcases h2 : lookAll M v rest with e2 | qs
      · rw [h2] at h; exact absurd h (by simp)
      · rw [h2] at h
        have hps : q1 :: qs = ps := by injection h
        subst hps
        rcases List.mem_cons.mp hq with hq1 | hqs
        · subst hq1; exact lookProb_mem M v p q h1
        · exact ih qs h2 q hqs

/-- Evaluation helper: scoring the word `"a"` with single-character tokens
`S`, `E` at indices 0 and 1, `P(S→a) = 1/2` and `P(a→E) = 1/2`, reads the
probabilities `[1/2, 1/2]` and returns `log(1/2) + log(1/2)`. -/
theorem LL_a_eval :
    calculate_log_likelihood "a"
      [[0, 0, (1:ℚ)/2, 1/2], [1/4, 1/4, 1/4, 1/4], [0, 1/2, 0, 1/2], [1/4, 1/4, 1/4, 1/4]]
      [("S", 0), ("E", 1), ("a", 2), ("b", 3)] "S" "E"
      = .ok (Real.log ((1:ℝ)/2) + Real.log ((1:ℝ)/2)) := by
  have hcore : calculate_log_likelihood_probs "a"
      [[0, 0, (1:ℚ)/2, 1/2], [1/4, 1/4, 1/4, 1/4], [0, 1/2, 0, 1/2], [1/4, 1/4, 1/4, 1/4]]
      [("S", 0), ("E", 1), ("a", 2), ("b", 3)] "S" "E" = .ok [(1:ℚ)/2, 1/2] := rfl
  unfold calculate_log_likelihood
  rw [hcore]
  norm_num [logSum]

/-- C3 counterexample: on the empty word list the code raises
`ZeroDivisionError` from `-total / len(words)`, which is not the
`DomainError (EmptyCorpus)` the claim states. -/
theorem C3_counterexample :
    calculate_neg_mean_log_likelihood [] [[1]] [("a", 0)] "S" "E"
      = .error .zeroDivisionError ∧
    PyError.zeroDivisionError ≠ PyError.domainError DomainReason.emptyCorpus :=
  ⟨rfl, by decide⟩

/-- C3 amended: `calculate_neg_mean_log_likelihood` applied to an empty
word list fails with an uncaught `ZeroDivisionError` from dividing by
`len(words) = 0`, for every matrix, vocabulary and token choice; no
`DomainError` is raised. -/
theorem C3_empty_corpus (M : List (List ℚ)) (v : List (String × ℕ))
    (s e : String) :
    calculate_neg_mean_log_likelihood [] M v s e = .error .zeroDivisionError := rfl

/-- C6: whenever every entry of the probability matrix lies in `[0, 1]` and
`calculate_log_likelihood` returns a value, that value is ≤ 0 (a sum of
logarithms of matrix entries). -/
theorem C6_score_word_nonpos (word : String) (M : List (List ℚ))
    (v : List (String × ℕ)) (s e : String) (r : ℝ)
    (hM : ∀ row ∈ M, ∀ p ∈ row, 0 ≤ p ∧ p ≤ 1)
    (h : calculate_log_likelihood word M v s e = .ok r) : r ≤ 0 := by
  unfold calculate_log_likelihood at h
  rcases hcore : calculate_log_likelihood_probs word M v s e with e' | ps
  · rw [hcore] at h; exact absurd h (by simp)
  · rw [hcore] at h
    dsimp only at h
    have hr : logSum ps = r := by injection h
    subst hr
    unfold calculate_log_likelihood_probs at hcore
    apply logSum_nonpos
    intro q hq
    obtain ⟨row, hrow, hqrow⟩ := lookAll_mem M v _ ps hcore q hq
    exact hM row hrow q hqrow

/-- C6 witness: the score of `"a"` in the worked single-character-token
model is ≤ 0. -/
theorem C6_score_word_nonpos_witness :
    Real.log ((1:ℝ)/2) + Real.log ((1:ℝ)/2) ≤ 0 :=
  C6_score_word_nonpos "a"
    [[0, 0, (1:ℚ)/2, 1/2], [1/4, 1/4, 1/4, 1/4], [0, 1/2, 0, 1/2], [1/4, 1/4, 1/4, 1/4]]
    [("S", 0), ("E", 1), ("a", 2), ("b", 3)] "S" "E" _
    (by norm_num) LL_a_eval

/-- C7: on a one-word corpus `[w]`, `calculate_neg_mean_log_likelihood`
returns exactly the negation of `calculate_log_likelihood w` (the sum has
one term and the division is by 1). -/
theorem C7_single_word_corpus (w : String) (M : List (List ℚ))
    (v : List (String × ℕ)) (s e : String) (r : ℝ)
    (h : calculate_log_likelihood w M v s e = .ok r) :
    calculate_neg_mean_log_likelihood [w] M v s e = .ok (-r) := by
  unfold calculate_log_likelihood at h
  rcases hcore : calculate_log_likelihood_probs w M v s e with e' | ps
  · rw [hcore] at h; exact absurd h (by simp)
  · rw [hcore] at h
    dsimp only at h
    have hr : logSum ps = r := by injection h
    unfold calculate_neg_mean_log_likelihood corpus_probs
    rw [hcore]
    simp [corpus_probs, hr]

/-- C7 witness: the one-word corpus `["a"]` in the worked model scores the
negation of the word score `log(1/2) + log(1/2)`. -/
theorem C7_single_word_corpus_witness :
    calculate_neg_mean_log_likelihood ["a"]
      [[0, 0, (1:ℚ)/2, 1/2], [1/4, 1/4, 1/4, 1/4], [0, 1/2, 0, 1/2], [1/4, 1/4, 1/4, 1/4]]
      [("S", 0), ("E", 1), ("a", 2), ("b", 3)] "S" "E"
      = .ok (-(Real.log ((1:ℝ)/2) + Real.log ((1:ℝ)/2))) :=
  C7_single_word_corpus "a" _ _ "S" "E" _ LL_a_eval

end BigramModel

namespace BigramModel

/-- C8 counterexample: in the claim's alphabet the start and end tokens are
the multi-character strings `"<S>"` and `"<E>"`, so the very first lookup of
`calculate_log_likelihood "a"` is of the single character `"<"`, which is
not a key of the vocabulary: the call raises `KeyError` instead of
returning `log(0.5) + log(0.5)`. -/
theorem C8_counterexample :
    calculate_log_likelihood "a"
      [[0, 0, (1:ℚ)/2, 1/2], [1/4, 1/4, 1/4, 1/4], [0, 1/2, 0, 1/2], [1/4, 1/4, 1/4, 1/4]]
      [("<S>", 0), ("<E>", 1), ("a", 2), ("b", 3)] "<S>" "<E>"
      = .error (.keyError "<") ∧
    (Except.error (PyError.keyError "<") : Except PyError ℝ)
      ≠ .ok (Real.log ((1:ℝ)/2) + Real.log ((1:ℝ)/2)) := by
  constructor
  · rfl
  · simp

/-- C8 (amended): the counts row `[0,0,3,1]` with smoothing 1 normalises to
`[1/8, 1/8, 4/8, 2/8]`; and with single-character start/end tokens `S`, `E`
at indices 0 and 1 (the only way the code walks the tokens as single
symbols), a matrix with `P(S→a) = 0.5` and `P(a→E) = 0.5` gives
`score_word("a") = log(0.5) + log(0.5)`. -/
theorem C8_worked_example :
    bigrams_count_to_probabilities [[0, 0, 3, 1]] 1
      = [[some (1/8), some (1/8), some (4/8), some (2/8)]] ∧
    calculate_log_likelihood "a"
      [[0, 0, (1:ℚ)/2, 1/2], [1/4, 1/4, 1/4, 1/4], [0, 1/2, 0, 1/2], [1/4, 1/4, 1/4, 1/4]]
      [("S", 0), ("E", 1), ("a", 2), ("b", 3)] "S" "E"
      = .ok (Real.log ((1:ℝ)/2) + Real.log ((1:ℝ)/2)) :=
  ⟨by norm_num [bigrams_count_to_probabilities, fdiv], LL_a_eval⟩

/-- C10: `calculate_log_likelihood` walks the concatenated string
`start_token + word.lower() + end_token` one character at a time.  (a) With
the default multi-character tokens, every character of the token is looked
up on its own: with vocabulary keys `<S>`, `<E>`, `a` the first lookup is
already the unknown single character `"<"` and every call fails with
`KeyError "<"`, for every word and matrix, even though `"<S>"` itself is a
key.  (b) The walk coincides with the spec's symbol-pair walk exactly when
both tokens are single characters: then the processed character list is
`start :: word.lower() ++ [end]`. -/
theorem C10_token_chars_split :
    (∀ (word : String) (M : List (List ℚ)),
      calculate_log_likelihood_probs word M [("<S>", 0), ("<E>", 1), ("a", 2)]
        "<S>" "<E>" = .error (.keyError "<")) ∧
    (∀ (cs ce : Char) (word : String),
      (processedWord (String.singleton cs) (String.singleton ce) word).data
        = cs :: ((lower word).data ++ [ce])) := by
  constructor
  · intro word M
    rfl
  · intro cs ce word
    rfl

end BigramModel

namespace BigramModel

theorem lookAll_firstMissing (M : List (List ℚ)) (v : List (String × ℕ))
    (hb : ∀ pr ∈ v, pr.2 < M.length ∧ ∀ row ∈ M, pr.2 < row.length) :
    ∀ (l : List Char) (a c : Char), l ≠ [] →
      (a :: l).find?
        (fun ch => (v.find? (fun p => p.1 == String.singleton ch)).isNone) = some c →
      lookAll M v (walkPairs (a :: l)) = .error (.keyError (String.singleton c)) := by
  intro l
  induction l with
  | nil =>
    intro a c hne _
    exact absurd rfl hne
  | cons b t ih =>
    intro a c _ hfind
    have hw : walkPairs (a :: b :: t) = (a, b) :: walkPairs (b :: t) := rfl
    rw [hw]
    by_cases hma : (v.find? (fun p => p.1 == String.singleton a)).isNone = true
    · have hca : c = a := by
        rw [List.find?_cons_of_pos (p := fun ch => (v.find? (fun q => q.1 == String.singleton ch)).isNone) _ hma] at hfind
        injection hfind with h'
        exact h'.symm
      subst hca
      have hlook : strDictGet v (String.singleton c)
          = .error (.keyError (String.singleton c)) := by
        unfold strDictGet
        rw [Option.isNone_iff_eq_none] at hma
        rw [hma]
      unfold lookAll lookProb
      rw [hlook]
    · have hfind' : (b :: t).find?
          (fun ch => (v.find? (fun p => p.1 == String.singleton ch)).isNone) = some c := by
        rw [List.find?_cons_of_neg (p := fun ch => (v.find? (fun q => q.1 == String.singleton ch)).isNone) _ (by simpa using hma)] at hfind
        exact hfind
      obtain ⟨pra, hpra⟩ : ∃ pr, v.find? (fun p => p.1 == String.singleton a) = some pr := by
        rcases hf : v.find? (fun p => p.1 == String.singleton a) with _ | pr
        · rw [hf] at hma; exact absurd rfl hma
        · exact ⟨pr, hf⟩
      have hja : strDictGet v (String.singleton a) = .ok pra.2 := by
        unfold strDictGet
        rw [hpra]
      have hbounds := hb pra (List.mem_of_find?_eq_some hpra)
      by_cases hmb : (v.find? (fun p => p.1 == String.singleton b)).isNone = true
      · have hcb : c = b := by
          rw [List.find?_cons_of_pos (p := fun ch => (v.find? (fun q => q.1 == String.singleton ch)).isNone) _ hmb] at hfind'
          injection hfind' with h'
          exact h'.symm
        subst hcb
        have hlookb : strDictGet v (String.singleton c)
            = .error (.keyError (String.singleton c)) := by
          unfold strDictGet
          rw [Option.isNone_iff_eq_none] at hmb
          rw [hmb]
        unfold lookAll lookProb
        rw [hja]
        dsimp only
        rw [hlookb]
      · obtain ⟨prb, hprb⟩ : ∃ pr, v.find? (fun p => p.1 == String.singleton b) = some pr := by
          rcases hf : v.find? (fun p => p.1 == String.singleton b) with _ | pr
          · rw [hf] at hmb; exact absurd rfl hmb
          · exact ⟨pr, hf⟩
        have hjb : strDictGet v (String.singleton b) = .ok prb.2 := by
          unfold strDictGet
          rw [hprb]
        obtain ⟨rowa, hrowa⟩ : ∃ row, M.get? pra.2 = some row := by
          rcases hg : M.get? pra.2 with _ | row
          · rw [List.get?_eq_none] at hg
            exact absurd hbounds.1 (by omega)
          · exact ⟨row, rfl⟩
        obtain ⟨q, hq⟩ : ∃ q, rowa.get? prb.2 = some q := by
          rcases hg : rowa.get? prb.2 with _ | q
          · rw [List.get?_eq_none] at hg
            have := (hb prb (List.mem_of_find?_eq_some hprb)).2 rowa (List.get?_mem hrowa)
            exact absurd this (by omega)
          · exact ⟨q, rfl⟩
        have hlp : lookProb M v (a, b) = .ok q := by
          unfold lookProb
          rw [hja]
          dsimp only
          rw [hjb]
          dsimp only
          unfold tensorGet2
          rw [hrowa]
          dsimp only
          rw [hq]
        have htne : t ≠ [] := by
          intro h0
          subst h0
          have hpredb : (v.find? (fun p => p.1 == String.singleton b)).isNone = false := by
            rw [hprb]; rfl
          rw [List.find?_cons_of_neg (p := fun ch => (v.find? (fun q => q.1 == String.singleton ch)).isNone) _ (by simp [hpredb])] at hfind'
          exact absurd hfind' (by simp)
        have hrest := ih b c htne hfind'
        unfold lookAll
        rw [hlp]
        dsimp only
        rw [hrest]

/-- C4 counterexample: looking up the unknown symbol `z` raises a plain
`KeyError`, not the `DomainError (UnknownSymbol)` the claim states (the
source has no `DomainError` at all). -/
theorem C4_counterexample :
    calculate_log_likelihood_probs "z"
      [[(1:ℚ)/3, 1/3, 1/3], [1/3, 1/3, 1/3], [1/3, 1/3, 1/3]]
      [("S", 0), ("E", 1), ("a", 2)] "S" "E" = .error (.keyError "z") ∧
    PyError.keyError "z" ≠ PyError.domainError DomainReason.unknownSymbol :=
  ⟨rfl, by decide⟩

/-- C4 (amended): whenever the vocabulary's indices are in range for the
matrix, the processed word has at least two characters, and some character
of the processed word is missing from the vocabulary, the scoring loop of
`calculate_log_likelihood` fails with `KeyError` on the first missing
character in walk order — it never silently skips the symbol. -/
theorem C4_unknown_symbol (word : String) (M : List (List ℚ))
    (v : List (String × ℕ)) (s e : String) (c : Char)
    (hb : ∀ pr ∈ v, pr.2 < M.length ∧ ∀ row ∈ M, pr.2 < row.length)
    (hlen : 2 ≤ (processedWord s e word).data.length)
    (hfind : (processedWord s e word).data.find?
      (fun ch => (v.find? (fun p => p.1 == String.singleton ch)).isNone) = some c) :
    calculate_log_likelihood_probs word M v s e
      = .error (.keyError (String.singleton c)) := by
  unfold calculate_log_likelihood_probs
  rcases hd : (processedWord s e word).data with _ | ⟨a, l⟩
  · rw [hd] at hlen
    simp at hlen
  · rw [hd] at hfind
    have hlne : l ≠ [] := by
      intro h0
      subst h0
      rw [hd] at hlen
      simp at hlen
    exact lookAll_firstMissing M v hb l a c hlne hfind

/-- C4 witness: the word `"qa"` over the vocabulary `{S, E, a}` fails with
`KeyError` on `q`. -/
theorem C4_unknown_symbol_witness :
    calculate_log_likelihood_probs "qa"
      [[(1:ℚ)/3, 1/3, 1/3], [1/3, 1/3, 1/3], [1/3, 1/3, 1/3]]
      [("S", 0), ("E", 1), ("a", 2)] "S" "E" = .error (.keyError "q") :=
  C4_unknown_symbol "qa"
    [[(1:ℚ)/3, 1/3, 1/3], [1/3, 1/3, 1/3], [1/3, 1/3, 1/3]]
    [("S", 0), ("E", 1), ("a", 2)] "S" "E" 'q'
    (by decide) (by decide) (by decide)

end BigramModel

namespace BigramModel

theorem generate_go_sound (us : ℕ → ℚ) (e : String) (c2i : List (String × ℕ))
    (i2c : List (ℕ × String)) (M : List (List ℚ)) :
    ∀ (fuel step : ℕ) (cur : String) (l : List String),
      generate_go us e c2i i2c M fuel step cur = .ok l →
      l.length ≤ fuel ∧ e ∉ l := by
  intro fuel
  induction fuel with
  | zero =>
    intro step cur l h
    unfold generate_go at h
    have hl : l = [] := by injection h with h'; exact h'.symm
    subst hl
    simp
  | succ n ih =>
    intro step cur l h
    unfold generate_go at h
    rcases h1 : strDictGet c2i cur with e1 | i
    · rw [h1] at h; exact absurd h (by simp)
    · rw [h1] at h
      dsimp only at h
      rcases h2 : sample_next_character (us step) (i : ℤ) M i2c with e2 | nc
      · rw [h2] at h; exact absurd h (by simp)
      · rw [h2] at h
        dsimp only at h
        by_cases hce : nc = e
        · rw [if_pos hce] at h
          have hl : l = [] := by injection h with h'; exact h'.symm
          subst hl
          simp
        · rw [if_neg hce] at h
          rcases h3 : generate_go us e c2i i2c M n (step + 1) nc with e3 | rest
          · rw [h3] at h; exact absurd h (by simp)
          · rw [h3] at h
            dsimp only at h
            have hl : nc :: rest = l := by injection h
            subst hl
            obtain ⟨hlen, hnm⟩ := ih (step + 1) nc rest h3
            refine ⟨by simpa using Nat.succ_le_succ hlen, ?_⟩
            intro hmem
            rcases List.mem_cons.mp hmem with h' | h'
            · exact hce h'.symm
            · exact hnm h'

/-- Evaluation helper: a two-step generation run over the vocabulary
`{S, a, E}` that samples `a` and then the end token `E`, keeping `["a"]`. -/
theorem generate_witness_run :
    generate_go (fun _ => 0) "E" [("S", 0), ("a", 1), ("E", 2)]
      [(0, "S"), (1, "a"), (2, "E")] [[0, 1, 0], [0, 0, 1], [0, 0, 1]] 2 0 "S"
      = .ok ["a"] := by
  have hl0 : strDictGet [("S", 0), ("a", 1), ("E", 2)] "S" = .ok 0 := rfl
  have hl1 : strDictGet [("S", 0), ("a", 1), ("E", 2)] "a" = .ok 1 := rfl
  have hs0 : sample_next_character 0 0 [[0, 1, 0], [0, 0, 1], [0, 0, 1]]
      [(0, "S"), (1, "a"), (2, "E")] = .ok "a" := by
    norm_num [sample_next_character, tensorRow, torch_multinomial1, pick, natDictGet]
  have hs1 : sample_next_character 0 1 [[0, 1, 0], [0, 0, 1], [0, 0, 1]]
      [(0, "S"), (1, "a"), (2, "E")] = .ok "E" := by
    norm_num [sample_next_character, tensorRow, torch_multinomial1, pick, natDictGet]
  have hae : ("a" = "E") = False := by simp
  norm_num [generate_go, hl0, hl1, hs0, hs1, hae]

/-- C5 counterexample: with smoothing-style probabilities the start token
itself can be sampled; here the first draw selects `<S>`, which the loop
appends like any ordinary symbol, so the returned string is exactly the
start token `"<S>"`, contradicting "never contains the start token". -/
theorem C5_counterexample :
    generate_name (fun _ => 0) "<S>" "<E>" [("<S>", 0), ("a", 1), ("<E>", 2)]
      [(0, "<S>"), (1, "a"), (2, "<E>")] [[1, 0, 0], [0, 0, 1], [0, 0, 1]] 1
      = .ok "<S>" := by
  have hl0 : strDictGet [("<S>", 0), ("a", 1), ("<E>", 2)] "<S>" = .ok 0 := rfl
  have hs0 : sample_next_character 0 0 [[1, 0, 0], [0, 0, 1], [0, 0, 1]]
      [(0, "<S>"), (1, "a"), (2, "<E>")] = .ok "<S>" := by
    norm_num [sample_next_character, tensorRow, torch_multinomial1, pick, natDictGet]
  have hne : ("<S>" = "<E>") = False := by simp
  have hj : String.join ["<S>"] = "<S>" := rfl
  norm_num [generate_name, generate_go, hl0, hs0, hne, hj]

/-- C5 (amended): whenever the generation loop returns a symbol list `l`,
`generate_name` returns their concatenation, at most `max_length` symbols
are kept, and the end token is never among them (sampling it stops the
loop without appending); the start token, however, is appended like any
other symbol whenever it is sampled. -/
theorem C5_generate_bounded (us : ℕ → ℚ) (s e : String) (c2i : List (String × ℕ))
    (i2c : List (ℕ × String)) (M : List (List ℚ)) (L : ℕ) (l : List String)
    (h : generate_go us e c2i i2c M L 0 s = .ok l) :
    generate_name us s e c2i i2c M L = .ok (String.join l) ∧
    l.length ≤ L ∧ e ∉ l := by
  refine ⟨?_, generate_go_sound us e c2i i2c M L 0 s l h⟩
  unfold generate_name
  rw [h]

/-- C5 witness: the concrete two-step run keeps `["a"]`: one symbol within
the bound 2, and the end token is not in the output. -/
theorem C5_generate_bounded_witness :
    generate_name (fun _ => 0) "S" "E" [("S", 0), ("a", 1), ("E", 2)]
      [(0, "S"), (1, "a"), (2, "E")] [[0, 1, 0], [0, 0, 1], [0, 0, 1]] 2
      = .ok (String.join ["a"]) ∧
    (["a"] : List String).length ≤ 2 ∧ "E" ∉ (["a"] : List String) :=
  C5_generate_bounded (fun _ => 0) "S" "E" [("S", 0), ("a", 1), ("E", 2)]
    [(0, "S"), (1, "a"), (2, "E")] [[0, 1, 0], [0, 0, 1], [0, 0, 1]] 2 ["a"]
    generate_witness_run

/-- C9 counterexample: the row `[1/2]` sums to 1/2, far from 1.0, yet
`sample_next_character` happily samples from it (torch normalises the
weights); no error of any kind is raised for the malformed row. -/
theorem C9_counterexample :
    ([(1:ℚ)/2] : List ℚ).sum = 1/2 ∧
    ¬(|([(1:ℚ)/2] : List ℚ).sum - 1| ≤ 1/1000000) ∧
    sample_next_character 0 0 [[(1:ℚ)/2]] [(0, "a")] = .ok "a" := by
  refine ⟨by norm_num, ?_, ?_⟩
  · intro hc
    rw [abs_le] at hc
    have h1 := hc.1
    norm_num at h1
  · norm_num [sample_next_character, tensorRow, torch_multinomial1, pick, natDictGet]

/-- C9 (amended): an out-of-range current index (below `-len` or at/above
`len` under torch's signed indexing) makes `sample_next_character` fail
with `IndexError`; rows that do not sum to ~1.0 are not rejected. -/
theorem C9_index_out_of_range (u : ℚ) (i : ℤ) (M : List (List ℚ))
    (i2c : List (ℕ × String))
    (h : i < -(M.length : ℤ) ∨ (M.length : ℤ) ≤ i) :
    sample_next_character u i M i2c = .error .indexError := by
  have hrow : tensorRow M i = .error .indexError := by
    simp only [tensorRow]
    rcases h with h | h
    · have hi : i < 0 := by omega
      simp only [if_pos hi]
      rw [if_neg (by omega)]
    · have hi : ¬i < 0 := by omega
      simp only [if_neg hi]
      rw [if_neg (by omega)]
  unfold sample_next_character
  rw [hrow]

/-- C9 witness: index 5 into a 1-row matrix raises `IndexError`. -/
theorem C9_index_out_of_range_witness :
    sample_next_character 0 5 [[(1:ℚ)]] [(0, "a")] = .error .indexError :=
  C9_index_out_of_range 0 5 [[(1:ℚ)]] [(0, "a")] (Or.inr (by norm_num))

end BigramModel
